import Mathlib

/-!
Verification of the snbap media-extraction pipeline (src/snap.py).

The Python code manipulates JSON documents parsed from a profile page.  We
embed JSON values as the inductive type `JsonVal` (numeric leaves are
modelled as integers; the claims under study never depend on fractional
values).  Python dictionaries are insertion-ordered association lists with
string keys; `dict.get` returning Python `None` is modelled by `JsonVal.null`,
and the distinction between an absent key and a key bound to `None` is kept
via `Option`.  A Python expression that can raise an uncaught exception
(attribute access on a non-dict, unhashable dict key) is embedded in
`Except Unit`, `.error ()` standing for the raised exception.
-/
inductive JsonVal : Type where
  | null : JsonVal
  | bool (b : Bool) : JsonVal
  | num (n : Int) : JsonVal
  | str (s : String) : JsonVal
  | arr (xs : List JsonVal) : JsonVal
  | obj (fields : List (String × JsonVal)) : JsonVal

abbrev Obj := List (String × JsonVal)

/-- First binding of key `k` in an object, `none` when the key is absent
(Python dicts have unique keys, so first-match lookup is faithful). -/
def getOpt (o : Obj) (k : String) : Option JsonVal :=
  match o with
  | [] => none
  | (key, v) :: rest => if key = k then some v else getOpt rest k

/-- Python `o.get(k)`: absent keys give `None` (here `JsonVal.null`). -/
def pyGet (o : Obj) (k : String) : JsonVal := (getOpt o k).getD .null

/-- Python `o.get(k, d)`. -/
def pyGetD (o : Obj) (k : String) (d : JsonVal) : JsonVal := (getOpt o k).getD d

/-- Python `v.get(k)` on an arbitrary value: raises `AttributeError`
(modelled by `.error ()`) unless `v` is a dict. -/
def dotGet (v : JsonVal) (k : String) : Except Unit JsonVal :=
  match v with
  | .obj o => .ok (pyGet o k)
  | _ => .error ()

/-- Python `v.get(k, d)` on an arbitrary value. -/
def dotGetD (v : JsonVal) (k : String) (d : JsonVal) : Except Unit JsonVal :=
  match v with
  | .obj o => .ok (pyGetD o k d)
  | _ => .error ()

/-- Python truthiness of a JSON value. -/
def truthy : JsonVal → Bool
  | .null => false
  | .bool b => b
  | .num n => n != 0
  | .str s => s != ""
  | .arr xs => !xs.isEmpty
  | .obj o => !o.isEmpty

/-- Python `a or b` (both operands effect-free here, so eager is faithful). -/
def pyOr (a b : JsonVal) : JsonVal := if truthy a then a else b

/-- Python hashability of a JSON value (lists and dicts are unhashable). -/
def hashable : JsonVal → Bool
  | .arr _ => false
  | .obj _ => false
  | _ => true

/-- Dict-key normalisation: Python `True == 1` and `False == 0`, and `bool`
hashes like the corresponding `int`, so boolean keys collide with numeric
ones. -/
def normKey : JsonVal → JsonVal
  | .bool b => .num (if b then 1 else 0)
  | v => v

/-- Structural equality of scalar JSON values (used only on hashable keys). -/
def scalarEq : JsonVal → JsonVal → Bool
  | .null, .null => true
  | .bool a, .bool b => a == b
  | .num a, .num b => a == b
  | .str a, .str b => a == b
  | _, _ => false

/-- Equality test Python applies to dict keys. -/
def pyKeyEq (a b : JsonVal) : Bool := scalarEq (normKey a) (normKey b)

/-- The accumulating `media` dict of `extract_media_urls`
(src/snap.py line 58): insertion-ordered map from resolved album title to
the list of collected media-URL values. -/
abbrev Media := List (JsonVal × List JsonVal)

/-- Find the value stored under a title, by Python key equality. -/
def mediaLookup (m : Media) (t : JsonVal) : Option (List JsonVal) :=
  match m with
  | [] => none
  | (k, v) :: rest => if pyKeyEq k t = true then some v else mediaLookup rest t

/-- Python `media.setdefault(title, []).extend(urls)` (src/snap.py line 76):
appends onto an existing binding, else inserts a fresh binding at the end. -/
def addUrls (m : Media) (title : JsonVal) (us : List JsonVal) : Media :=
  match m with
  | [] => [(title, us)]
  | (k, v) :: rest =>
    if pyKeyEq k title = true then (k, v ++ us) :: rest
    else (k, v) :: addUrls rest title us

/-- `setdefault` with an unhashable key raises `TypeError`. -/
def addTitled (m : Media) (title : JsonVal) (us : List JsonVal) : Except Unit Media :=
  if hashable title = true then .ok (addUrls m title us) else .error ()

/-- Title resolution of src/snap.py lines 65-70:
`(obj.get("storyTitle") or \x7b\x7d).get("value") or obj.get("title") or
obj.get("displayName") or (path[-1] if path else "unknown")`. -/
def computeTitle (o : Obj) (path : List String) : Except Unit JsonVal :=
  match dotGet (pyOr (pyGet o "storyTitle") (.obj [])) "value" with
  | .error e => .error e
  | .ok sv =>
    .ok (pyOr sv (pyOr (pyGet o "title") (pyOr (pyGet o "displayName")
      (.str (match path.getLast? with | some k => k | none => "unknown")))))

/-- Per-entry media URL: `snap.get("snapUrls", \x7b\x7d).get("mediaUrl")`
(src/snap.py lines 72-74). -/
def snapUrl (snap : JsonVal) : Except Unit JsonVal :=
  match dotGetD snap "snapUrls" (.obj []) with
  | .error e => .error e
  | .ok su => dotGet su "mediaUrl"

/-- The list comprehension of src/snap.py lines 71-75: keep, in order, each
entry's media-URL value when it is truthy. -/
def extractUrls : List JsonVal → Except Unit (List JsonVal)
  | [] => .ok []
  | snap :: rest =>
    match snapUrl snap with
    | .error e => .error e
    | .ok u =>
      match extractUrls rest with
      | .error e => .error e
      | .ok us => .ok (if truthy u = true then u :: us else us)

def JsonVal.isArr : JsonVal → Bool
  | .arr _ => true
  | _ => false

def JsonVal.asArr : JsonVal → List JsonVal
  | .arr xs => xs
  | _ => []

mutual

/-- The inner `recurse` of `extract_media_urls` (src/snap.py lines 61-81),
dispatching on the dynamic type of the visited value. -/
def recurseVal : JsonVal → List String → Media → Except Unit Media
  | .obj o, path, m => recurseEntries o o path m
  | .arr xs, path, m => recurseElems xs path m
  | _, _, m => .ok m

/-- Iteration over `obj.items()` in insertion order; `whole` is the dict the
title fields are read from, `entries` the still-unprocessed items. -/
def recurseEntries (whole : Obj) : List (String × JsonVal) → List String → Media → Except Unit Media
  | [], _, m => .ok m
  | (key, val) :: rest, path, m =>
    if key = "snapList" ∧ val.isArr = true then
      match computeTitle whole path with
      | .error e => .error e
      | .ok title =>
        match extractUrls val.asArr with
        | .error e => .error e
        | .ok urls =>
          match addTitled m title urls with
          | .error e => .error e
          | .ok m2 => recurseEntries whole rest path m2
    else
      match recurseVal val (path ++ [key]) m with
      | .error e => .error e
      | .ok m2 => recurseEntries whole rest path m2

/-- Iteration over the elements of a list value (src/snap.py lines 79-81). -/
def recurseElems : List JsonVal → List String → Media → Except Unit Media
  | [], _, m => .ok m
  | x :: xs, path, m =>
    match recurseVal x path m with
    | .error e => .error e
    | .ok m2 => recurseElems xs path m2

end

/-- `extract_media_urls` (src/snap.py lines 51-84): start the walk at
`data.get("props", \x7b\x7d).get("pageProps", \x7b\x7d)` with an empty path
and an empty accumulator. -/
def extract_media_urls (data : Obj) : Except Unit Media :=
  match dotGetD (pyGetD data "props" (.obj [])) "pageProps" (.obj []) with
  | .error e => .error e
  | .ok pageProps => recurseVal pageProps [] []

/-- One discovered collection node: its resolved title, the raw entries of
its `snapList` value, and the media-URL values extracted from them. -/
abbrev Node := JsonVal × List JsonVal × List JsonVal

mutual

/-- Analysis companion of `recurseVal`: the collection nodes the walk
discovers, in encounter order, without the accumulating dict. -/
def nodesVal : JsonVal → List String → Except Unit (List Node)
  | .obj o, path => nodesEntries o o path
  | .arr xs, path => nodesElems xs path
  | _, _ => .ok []

def nodesEntries (whole : Obj) : List (String × JsonVal) → List String → Except Unit (List Node)
  | [], _ => .ok []
  | (key, val) :: rest, path =>
    if key = "snapList" ∧ val.isArr = true then
      match computeTitle whole path with
      | .error e => .error e
      | .ok title =>
        match extractUrls val.asArr with
        | .error e => .error e
        | .ok urls =>
          match nodesEntries whole rest path with
          | .error e => .error e
          | .ok ns => .ok ((title, val.asArr, urls) :: ns)
    else
      match nodesVal val (path ++ [key]) with
      | .error e => .error e
      | .ok ns1 =>
        match nodesEntries whole rest path with
        | .error e => .error e
        | .ok ns2 => .ok (ns1 ++ ns2)

def nodesElems : List JsonVal → List String → Except Unit (List Node)
  | [], _ => .ok []
  | x :: xs, path =>
    match nodesVal x path with
    | .error e => .error e
    | .ok ns1 =>
      match nodesElems xs path with
      | .error e => .error e
      | .ok ns2 => .ok (ns1 ++ ns2)

end

/-- The collection nodes of a whole document. -/
def extractNodes (data : Obj) : Except Unit (List Node) :=
  match dotGetD (pyGetD data "props" (.obj [])) "pageProps" (.obj []) with
  | .error e => .error e
  | .ok pageProps => nodesVal pageProps []

/-- Replay a node list onto an accumulator the way the walk does. -/
def foldAdd (m : Media) : List Node → Except Unit Media
  | [] => .ok m
  | (t, _, us) :: rest =>
    match addTitled m t us with
    | .error e => .error e
    | .ok m2 => foldAdd m2 rest

/-- Whether the walk would emit an entry's URL: the entry's
`snapUrls.mediaUrl` value exists (without raising) and is truthy. -/
def hasMediaUrl (snap : JsonVal) : Bool :=
  match snapUrl snap with
  | .ok u => truthy u
  | .error _ => false

/-- Pure replay of a node list (no failure possible once titles are
hashable). -/
def foldUrls (m : Media) : List Node → Media
  | [] => m
  | (t, _, us) :: rest => foldUrls (addUrls m t us) rest

/-- All resolved titles of the node list are hashable Python values. -/
def hashableTitles (ns : List Node) : Bool := ns.all (fun p => hashable p.1)

/-- The resolved titles are pairwise distinct under Python key equality. -/
def titlesDistinct : List Node → Bool
  | [] => true
  | p :: rest => rest.all (fun q => !(pyKeyEq p.1 q.1)) && titlesDistinct rest

/-- Does some node of the list resolve to title `t`? -/
def hasTitle : List Node → JsonVal → Bool
  | [], _ => false
  | p :: rest, t => pyKeyEq p.1 t || hasTitle rest t

/-- Concatenation, in encounter order, of the URL lists of every node that
resolves to title `t`. -/
def titledUrls : List Node → JsonVal → List JsonVal
  | [], _ => []
  | p :: rest, t => (if pyKeyEq p.1 t = true then p.2.2 else []) ++ titledUrls rest t

def w1doc : Obj :=
  [("props", .obj [("pageProps", .obj
    [("one", .obj [("title", .str "A"), ("snapList", .arr
        [.obj [("snapUrls", .obj [("mediaUrl", .str "u1")])],
         .obj [("snapUrls", .obj [("mediaUrl", .str "")])]])]),
     ("two", .obj [("title", .str "B"), ("snapList", .arr
        [.obj [("snapUrls", .obj [("mediaUrl", .str "u2")])]])])])])]

def w1nodes : List Node :=
  [(.str "A", [.obj [("snapUrls", .obj [("mediaUrl", .str "u1")])],
               .obj [("snapUrls", .obj [("mediaUrl", .str "")])]], [.str "u1"]),
   (.str "B", [.obj [("snapUrls", .obj [("mediaUrl", .str "u2")])]], [.str "u2"])]

def w7doc : Obj :=
  [("props", .obj [("pageProps", .obj
    [("alb", .obj
       [("snapList", .arr [.obj [("snapUrls", .obj [("mediaUrl", .str "u1")])]])]),
     ("other", .obj [("title", .str "alb"), ("snapList", .arr
       [.obj [("snapUrls", .obj [("mediaUrl", .str "u2")])]])])])])]

def w7nodes : List Node :=
  [(.str "alb", [.obj [("snapUrls", .obj [("mediaUrl", .str "u1")])]], [.str "u1"]),
   (.str "alb", [.obj [("snapUrls", .obj [("mediaUrl", .str "u2")])]], [.str "u2"])]

def w10doc : Obj :=
  [("props", .obj [("pageProps", .obj
    [("empty", .obj [("snapList", .arr [])])])])]

def w10nodes : List Node := [(.str "empty", [], [])]

/-- A document under whose `pageProps` the empty-string key holds a
collection node with no title fields. -/
def c4doc : Obj :=
  [("props", .obj [("pageProps", .obj
    [("", .obj [("snapList", .arr
      [.obj [("snapUrls", .obj [("mediaUrl", .str "u")])]])])])])]

/-- Characters after the last slash (empty when the string ends in one). -/
def basenameChars (cs : List Char) : List Char :=
  cs.foldl (fun acc c => if c == '/' then [] else acc ++ [c]) []

/-- Python `os.path.basename`: the part after the last slash. -/
def pyBasename (s : String) : String := String.mk (basenameChars s.data)

/-- Does `needle` occur at the head of `hay`? -/
def leadMatch : List Char → List Char → Bool
  | [], _ => true
  | _ :: _, [] => false
  | a :: as, b :: bs => a == b && leadMatch as bs

/-- Does `needle` occur anywhere in `hay`? -/
def hasSub (needle : List Char) : List Char → Bool
  | [] => needle.isEmpty
  | c :: rest => leadMatch needle (c :: rest) || hasSub needle rest

/-- The remainder of `hay` after the first occurrence of `needle`. -/
def afterSub (needle : List Char) : List Char → Option (List Char)
  | [] => if needle.isEmpty then some [] else none
  | c :: rest =>
    if leadMatch needle (c :: rest) = true then some ((c :: rest).drop needle.length)
    else afterSub needle rest

def hexVal (c : Char) : Option Nat :=
  if '0' ≤ c ∧ c ≤ '9' then some (c.toNat - '0'.toNat)
  else if 'a' ≤ c ∧ c ≤ 'f' then some (c.toNat - 'a'.toNat + 10)
  else if 'A' ≤ c ∧ c ≤ 'F' then some (c.toNat - 'A'.toNat + 10)
  else none

/-- Percent-decoding of `urllib.parse.unquote`, modelled for single-byte
(ASCII) escapes; an invalid escape is kept verbatim, as in Python.
(Multi-byte UTF-8 escape sequences are outside the modelled fragment; the
claims under study involve none.) -/
def unquoteChars : List Char → List Char
  | [] => []
  | '%' :: a :: b :: rest =>
    match hexVal a, hexVal b with
    | some x, some y => Char.ofNat (16 * x + y) :: unquoteChars rest
    | _, _ => '%' :: unquoteChars (a :: b :: rest)
  | c :: rest => c :: unquoteChars rest

def pyUnquote (s : String) : String := String.mk (unquoteChars s.data)

/-- The characters removed by `re.sub` in src/snap.py lines 32 and 90. -/
def strippedChar (c : Char) : Bool :=
  c == '<' || c == '>' || c == ':' || c == '\"' || c == '/' || c == '\\' ||
    c == '|' || c == '?' || c == '*'

def stripChars (s : String) : String :=
  String.mk (s.data.filter (fun c => !(strippedChar c)))

/-- Python `needle in hay` (substring test). -/
def pyContains (needle hay : String) : Bool := hasSub needle.data hay.data

/-- ASCII lower-casing, as `str.lower` acts on the characters at play. -/
def lowerChar (c : Char) : Char :=
  if 'A' ≤ c ∧ c ≤ 'Z' then Char.ofNat (c.toNat + 32) else c

def toLowerStr (s : String) : String := String.mk (s.data.map lowerChar)

/-- Python `s.endswith(ext)`. -/
def endsWithStr (s ext : String) : Bool := leadMatch ext.data.reverse s.data.reverse

/-- `".jpg" if "image" in ct else ".mp4" if "video" in ct else ""`
(src/snap.py line 97). -/
def contentTypeExt (ct : String) : String :=
  if pyContains "image" ct = true then ".jpg"
  else if pyContains "video" ct = true then ".mp4"
  else ""

/-- Filename derivation of `download_media_to_dir` (src/snap.py lines
88-100): basename of the URL path, percent-decoded, with filesystem-unsafe
characters stripped; the content-type extension is appended unless the
lower-cased name already ends with that exact extension. -/
def download_filename (urlPath ct : String) : String :=
  let base := stripChars (pyUnquote (pyBasename urlPath))
  let ext := contentTypeExt ct
  if ext ≠ "" ∧ endsWithStr (toLowerStr base) ext = false then base ++ ext else base

/-- Everything before the first occurrence of `c`. -/
def cutAtChar (c : Char) : List Char → List Char
  | [] => []
  | x :: xs => if x == c then [] else x :: cutAtChar c xs

/-- The suffix starting at the first slash (used to split authority from
path). -/
def fromSlash : List Char → List Char
  | [] => []
  | c :: rest => if c == '/' then c :: rest else fromSlash rest

/-- The path component of `urllib.parse.urlparse`, modelled for URLs with an
explicit `scheme://authority` prefix (fragment and query are cut first;
schemeless inputs are returned whole, as they are all path). -/
def pyUrlPath (url : String) : String :=
  let s1 := cutAtChar '#' url.data
  let s2 := cutAtChar '?' s1
  match afterSub [':', '/', '/'] s2 with
  | none => String.mk s2
  | some rest => String.mk (fromSlash rest)

/-- Observable outcome of the single GET a download task performs: response
status, declared content type, and whether the local file write succeeds
(an `aiofiles` write raising is caught and logged in src/snap.py lines
103-110). -/
structure MediaResponse where
  status : Nat
  contentType : String
  writeOk : Bool

/-- `download_media_to_dir` (src/snap.py lines 86-110): non-200 statuses
and write failures yield `none` (the item is dropped); otherwise the file
is written under the derived name inside `destDir`. -/
def download_media_to_dir (resp : MediaResponse) (url : String) (destDir : String) :
    Option String :=
  if resp.status ≠ 200 then none
  else
    let filename := download_filename (pyUrlPath url) resp.contentType
    if resp.writeOk = true then some (destDir ++ "/" ++ filename) else none

/-- `download_and_collect_sync` (src/snap.py lines 137-152): one task per
URL, `asyncio.gather` keeps input order, and only non-`None` results are
collected.  The network is abstracted by `fetch`, giving each URL's
response outcome. -/
def download_and_collect_sync (fetch : String → MediaResponse) (urls : List String)
    (destRoot : String) : List String :=
  (urls.map (fun u => download_media_to_dir (fetch u) u destRoot)).filterMap id

def wfetch : String → MediaResponse :=
  fun u => if u = "https://x/bad.jpg" then ⟨404, "image/jpeg", true⟩
           else ⟨200, "image/jpeg", true⟩

def wurls : List String := ["https://x/a.jpg", "https://x/bad.jpg", "https://x/b.jpg"]

/-- Spec-side notion of a "recognizable media extension", taken from the
extension lists the repository itself recognises when displaying media
(src/snap.py lines 172-174). -/
def hasMediaExtension (name : String) : Bool :=
  [".jpg", ".jpeg", ".png", ".webp", ".mp4", ".mov", ".webm"].any
    (fun e => endsWithStr (toLowerStr name) e)

/-- Observable inputs of `fetch_next_data` (src/snap.py lines 35-49): the
response status, and the text content of the element with id
`__NEXT_DATA__` (`none` when the element is missing or has no string
content, the condition `if not el or not el.string`).  The HTML and JSON
parsers are external libraries: `parseJson` abstracts `json.loads`, with
`none` modelling a raised parse exception, which the function catches and
logs. -/
structure FetchResponse where
  status : Nat
  nextData : Option String

/-- `fetch_next_data` (src/snap.py lines 35-49): only a 404 status
short-circuits to `None`; otherwise the body is parsed regardless of the
status, and a missing/empty payload element or a parse failure yields
`None`. -/
def fetch_next_data (parseJson : String → Option Obj) (resp : FetchResponse) :
    Option Obj :=
  if resp.status = 404 then none
  else
    match resp.nextData with
    | none => none
    | some s => if s = "" then none else parseJson s

/-- Filesystem effects performed by the archive builder. -/
inductive FsOp : Type where
  | mkdtemp (pfx : String) : FsOp
  | createZip (path : String) (entries : List String) : FsOp

/-- `make_zip_from_files` (src/snap.py lines 112-124): absent on an empty
input list, before any filesystem effect; otherwise one fresh temp
directory and one zip containing, under their base names, the files whose
addition succeeded (`addOk` abstracts whether `zf.write` raises for a
file; a failure is caught, logged and skipped).  `zdir` stands for the
fresh directory `tempfile.mkdtemp` returns and `timestamp` for the
formatted `datetime.now()`; the returned pair is the result plus the list
of filesystem operations performed. -/
def make_zip_from_files (addOk : String → Bool) (files : List String)
    (username kind zdir timestamp : String) : Option String × List FsOp :=
  if files.isEmpty then (none, [])
  else
    let zname := username ++ "_" ++ kind ++ "_" ++ timestamp ++ ".zip"
    let zpath := zdir ++ "/" ++ zname
    (some zpath,
     [FsOp.mkdtemp "snap_zip_",
      FsOp.createZip zpath ((files.filter (fun f => addOk f)).map pyBasename)])

example :
    extract_media_urls
      [("props", .obj [("pageProps", .obj
        [("story", .obj [("snapList", .arr
          [.obj [("snapUrls", .obj [("mediaUrl", .str "https://x/a.jpg")])]])])])])]
      = .ok [(.str "story", [.str "https://x/a.jpg"])] := by
  rfl

theorem foldAdd_append (ns1 ns2 : List Node) (m : Media) :
    foldAdd m (ns1 ++ ns2) =
      match foldAdd m ns1 with
      | .error e => .error e
      | .ok m2 => foldAdd m2 ns2 := by
  induction ns1 generalizing m with
  | nil => rfl
  | cons p rest ih =>
    obtain ⟨t, raw, us⟩ := p
    simp only [List.cons_append, foldAdd]
    cases addTitled m t us with
    | error e => rfl
    | ok m2 => exact ih m2

mutual

theorem recurseVal_chr (v : JsonVal) (path : List String) (m : Media) :
    recurseVal v path m =
      match nodesVal v path with
      | .error e => .error e
      | .ok ns => foldAdd m ns := by
  cases v with
  | obj o => simpa [recurseVal, nodesVal] using recurseEntries_chr o o path m
  | arr xs => simpa [recurseVal, nodesVal] using recurseElems_chr xs path m
  | null => rfl
  | bool b => rfl
  | num n => rfl
  | str s => rfl

theorem recurseEntries_chr (whole : Obj) (entries : List (String × JsonVal))
    (path : List String) (m : Media) :
    recurseEntries whole entries path m =
      match nodesEntries whole entries path with
      | .error e => .error e
      | .ok ns => foldAdd m ns := by
  cases entries with
  | nil => rfl
  | cons kv rest =>
    obtain ⟨key, val⟩ := kv
    by_cases hc : key = "snapList" ∧ val.isArr = true
    · simp only [recurseEntries, nodesEntries, if_pos hc]
      cases computeTitle whole path with
      | error e => rfl
      | ok title =>
        dsimp only
        cases extractUrls val.asArr with
        | error e => rfl
        | ok urls =>
          dsimp only
          cases ha : addTitled m title urls with
          | error e =>
            cases hn : nodesEntries whole rest path with
            | error e2 => simp [ha]
            | ok ns => simp [foldAdd, ha]
          | ok m2 =>
            dsimp only
            rw [recurseEntries_chr whole rest path m2]
            cases hn : nodesEntries whole rest path with
            | error e2 => simp [ha]
            | ok ns => simp [foldAdd, ha]
    · simp only [recurseEntries, nodesEntries, if_neg hc]
      rw [recurseVal_chr val (path ++ [key]) m]
      cases nodesVal val (path ++ [key]) with
      | error e => rfl
      | ok ns1 =>
        dsimp only
        cases hf : foldAdd m ns1 with
        | error e =>
          cases hn : nodesEntries whole rest path with
          | error e2 => rfl
          | ok ns2 =>
            dsimp only
            rw [foldAdd_append]
            simp [hf]
        | ok m2 =>
          dsimp only
          rw [recurseEntries_chr whole rest path m2]
          cases hn : nodesEntries whole rest path with
          | error e2 => rfl
          | ok ns2 =>
            dsimp only
            rw [foldAdd_append]
            simp [hf]

theorem recurseElems_chr (xs : List JsonVal) (path : List String) (m : Media) :
    recurseElems xs path m =
      match nodesElems xs path with
      | .error e => .error e
      | .ok ns => foldAdd m ns := by
  cases xs with
  | nil => rfl
  | cons x rest =>
    simp only [recurseElems, nodesElems]
    rw [recurseVal_chr x path m]
    cases nodesVal x path with
    | error e => rfl
    | ok ns1 =>
      dsimp only
      cases hf : foldAdd m ns1 with
      | error e =>
        cases hn : nodesElems rest path with
        | error e2 => rfl
        | ok ns2 =>
          dsimp only
          rw [foldAdd_append]
          simp [hf]
      | ok m2 =>
        dsimp only
        rw [recurseElems_chr rest path m2]
        cases hn : nodesElems rest path with
        | error e2 => rfl
        | ok ns2 =>
          dsimp only
          rw [foldAdd_append]
          simp [hf]

end

mutual

theorem nodesVal_sound (v : JsonVal) (path : List String) (ns : List Node)
    (h : nodesVal v path = .ok ns) : ∀ p ∈ ns, extractUrls p.2.1 = .ok p.2.2 := by
  cases v with
  | obj o => exact nodesEntries_sound o o path ns (by simpa [nodesVal] using h)
  | arr xs => exact nodesElems_sound xs path ns (by simpa [nodesVal] using h)
  | null => simp [nodesVal] at h; subst h; simp
  | bool b => simp [nodesVal] at h; subst h; simp
  | num n => simp [nodesVal] at h; subst h; simp
  | str s => simp [nodesVal] at h; subst h; simp

theorem nodesEntries_sound (whole : Obj) (entries : List (String × JsonVal))
    (path : List String) (ns : List Node)
    (h : nodesEntries whole entries path = .ok ns) :
    ∀ p ∈ ns, extractUrls p.2.1 = .ok p.2.2 := by
  cases entries with
  | nil =>
    simp only [nodesEntries, Except.ok.injEq] at h
    simp [← h]
  | cons kv rest =>
    obtain ⟨key, val⟩ := kv
    by_cases hc : key = "snapList" ∧ val.isArr = true
    · simp only [nodesEntries, if_pos hc] at h
      cases ht : computeTitle whole path with
      | error e => simp [ht] at h
      | ok title =>
        cases hu : extractUrls val.asArr with
        | error e => simp [ht, hu] at h
        | ok urls =>
          cases hn : nodesEntries whole rest path with
          | error e => simp [ht, hu, hn] at h
          | ok ns2 =>
            simp only [ht, hu, hn, Except.ok.injEq] at h
            intro p hp
            rw [← h] at hp
            rcases List.mem_cons.mp hp with rfl | hp2
            · exact hu
            · exact nodesEntries_sound whole rest path ns2 hn p hp2
    · simp only [nodesEntries, if_neg hc] at h
      cases hv : nodesVal val (path ++ [key]) with
      | error e => simp [hv] at h
      | ok ns1 =>
        cases hn : nodesEntries whole rest path with
        | error e => simp [hv, hn] at h
        | ok ns2 =>
          simp only [hv, hn, Except.ok.injEq] at h
          intro p hp
          rw [← h] at hp
          rcases List.mem_append.mp hp with h1 | h2
          · exact nodesVal_sound val (path ++ [key]) ns1 hv p h1
          · exact nodesEntries_sound whole rest path ns2 hn p h2

theorem nodesElems_sound (xs : List JsonVal) (path : List String) (ns : List Node)
    (h : nodesElems xs path = .ok ns) :
    ∀ p ∈ ns, extractUrls p.2.1 = .ok p.2.2 := by
  cases xs with
  | nil =>
    simp only [nodesElems, Except.ok.injEq] at h
    simp [← h]
  | cons x rest =>
    simp only [nodesElems] at h
    cases hv : nodesVal x path with
    | error e => simp [hv] at h
    | ok ns1 =>
      cases hn : nodesElems rest path with
      | error e => simp [hv, hn] at h
      | ok ns2 =>
        simp only [hv, hn, Except.ok.injEq] at h
        intro p hp
        rw [← h] at hp
        rcases List.mem_append.mp hp with h1 | h2
        · exact nodesVal_sound x path ns1 hv p h1
        · exact nodesElems_sound rest path ns2 hn p h2

end

theorem extractNodes_sound (data : Obj) (ns : List Node)
    (h : extractNodes data = .ok ns) : ∀ p ∈ ns, extractUrls p.2.1 = .ok p.2.2 := by
  unfold extractNodes at h
  cases hd : dotGetD (pyGetD data "props" (.obj [])) "pageProps" (.obj []) with
  | error e => rw [hd] at h; simp at h
  | ok pp => rw [hd] at h; exact nodesVal_sound pp [] ns h

theorem extractUrls_spec (snaps : List JsonVal) (urls : List JsonVal)
    (h : extractUrls snaps = .ok urls) :
    urls.length = snaps.countP hasMediaUrl ∧ ∀ u ∈ urls, truthy u = true := by
  induction snaps generalizing urls with
  | nil =>
    simp only [extractUrls, Except.ok.injEq] at h
    simp [← h]
  | cons snap rest ih =>
    simp only [extractUrls] at h
    cases hs : snapUrl snap with
    | error e => simp [hs] at h
    | ok u =>
      cases hr : extractUrls rest with
      | error e => simp [hs, hr] at h
      | ok us =>
        simp only [hs, hr, Except.ok.injEq] at h
        obtain ⟨ihl, ihm⟩ := ih us hr
        rw [← h]
        by_cases ht : truthy u = true
        · constructor
          · simp [ht, List.countP_cons, hasMediaUrl, hs, ihl]
          · intro x hx
            simp only [if_pos ht] at hx
            rcases List.mem_cons.mp hx with rfl | hx2
            · exact ht
            · exact ihm x hx2
        · constructor
          · have ht' : truthy u = false := by
              cases hb : truthy u
              · rfl
              · exact absurd hb ht
            simp [ht', List.countP_cons, hasMediaUrl, hs, ihl]
          · intro x hx
            simp only [if_neg ht] at hx
            exact ihm x hx

/-- The walk is the replay of its discovered nodes onto the empty dict. -/
theorem extract_chr (data : Obj) :
    extract_media_urls data =
      match extractNodes data with
      | .error e => .error e
      | .ok ns => foldAdd [] ns := by
  unfold extract_media_urls extractNodes
  cases dotGetD (pyGetD data "props" (.obj [])) "pageProps" (.obj []) with
  | error e => rfl
  | ok pageProps => exact recurseVal_chr pageProps [] []

theorem normKey_hashable (a : JsonVal) : hashable (normKey a) = hashable a := by
  cases a <;> simp [normKey, hashable]

theorem scalarEq_true_iff (a b : JsonVal) :
    scalarEq a b = true ↔ (a = b ∧ hashable a = true) := by
  cases a <;> cases b <;> simp [scalarEq, hashable]

theorem pyKeyEq_true_iff (a b : JsonVal) :
    pyKeyEq a b = true ↔ (normKey a = normKey b ∧ hashable (normKey a) = true) := by
  simp [pyKeyEq, scalarEq_true_iff]

theorem pyKeyEq_refl (a : JsonVal) (h : hashable a = true) : pyKeyEq a a = true := by
  rw [pyKeyEq_true_iff, normKey_hashable]
  exact ⟨rfl, h⟩

theorem pyKeyEq_symm_true {a b : JsonVal} (h : pyKeyEq a b = true) : pyKeyEq b a = true := by
  rw [pyKeyEq_true_iff] at h ⊢
  exact ⟨h.1.symm, h.1 ▸ h.2⟩

theorem pyKeyEq_trans {a b c : JsonVal} (h1 : pyKeyEq a b = true)
    (h2 : pyKeyEq b c = true) : pyKeyEq a c = true := by
  rw [pyKeyEq_true_iff] at h1 h2 ⊢
  exact ⟨h1.1.trans h2.1, h1.2⟩

theorem mediaLookup_addUrls (m : Media) (t0 : JsonVal) (us : List JsonVal) (t : JsonVal) :
    mediaLookup (addUrls m t0 us) t =
      if pyKeyEq t0 t = true then
        match mediaLookup m t with
        | some v => some (v ++ us)
        | none => some us
      else mediaLookup m t := by
  induction m with
  | nil => simp [addUrls, mediaLookup]
  | cons kv rest ih =>
    obtain ⟨k, v⟩ := kv
    by_cases hk : pyKeyEq k t0 = true
    · simp only [addUrls, if_pos hk, mediaLookup]
      by_cases h0 : pyKeyEq t0 t = true
      · have hkt : pyKeyEq k t = true := pyKeyEq_trans hk h0
        simp [hkt, h0, mediaLookup]
      · have hkt : ¬ pyKeyEq k t = true := by
          intro hx
          exact h0 (pyKeyEq_trans (pyKeyEq_symm_true hk) hx)
        simp [hkt, h0, mediaLookup]
    · simp only [addUrls, if_neg hk, mediaLookup]
      by_cases hkt : pyKeyEq k t = true
      · have h0 : ¬ pyKeyEq t0 t = true := by
          intro hx
          exact hk (pyKeyEq_trans hkt (pyKeyEq_symm_true hx))
        simp [hkt, h0, mediaLookup]
      · simp only [if_neg hkt, ih]

theorem foldAdd_ok (ns : List Node) (m : Media) (hh : hashableTitles ns = true) :
    foldAdd m ns = .ok (foldUrls m ns) := by
  induction ns generalizing m with
  | nil => rfl
  | cons p rest ih =>
    obtain ⟨t, raw, us⟩ := p
    simp only [hashableTitles, List.all_cons, Bool.and_eq_true] at hh
    simp only [foldAdd, foldUrls, addTitled, if_pos hh.1]
    exact ih (addUrls m t us) hh.2

theorem mediaLookup_foldUrls (ns : List Node) (m : Media) (t : JsonVal) :
    mediaLookup (foldUrls m ns) t =
      match mediaLookup m t with
      | some v => some (v ++ titledUrls ns t)
      | none => if hasTitle ns t = true then some (titledUrls ns t) else none := by
  induction ns generalizing m with
  | nil => cases hm : mediaLookup m t <;> simp [foldUrls, titledUrls, hasTitle, hm]
  | cons p rest ih =>
    obtain ⟨t0, raw, us⟩ := p
    simp only [foldUrls]
    rw [ih (addUrls m t0 us)]
    rw [mediaLookup_addUrls m t0 us t]
    by_cases h0 : pyKeyEq t0 t = true
    · cases hm : mediaLookup m t <;>
        simp [h0, titledUrls, hasTitle, List.append_assoc]
    · have h0' : pyKeyEq t0 t = false := by
        cases hx : pyKeyEq t0 t
        · rfl
        · exact absurd hx h0
      cases hm : mediaLookup m t <;> simp [h0', titledUrls, hasTitle]

theorem addUrls_fresh (m : Media) (t : JsonVal) (us : List JsonVal)
    (h : ∀ kv ∈ m, pyKeyEq kv.1 t = false) :
    addUrls m t us = m ++ [(t, us)] := by
  induction m with
  | nil => rfl
  | cons kv rest ih =>
    obtain ⟨k, v⟩ := kv
    have h1 : pyKeyEq k t = false := h (k, v) (by simp)
    simp only [addUrls, h1]
    simp only [Bool.false_eq_true, if_false, List.cons_append, List.cons.injEq, true_and]
    exact ih (fun kv hk => h kv (by simp [hk]))

theorem foldUrls_fresh (ns : List Node) (m : Media)
    (hd : titlesDistinct ns = true)
    (hfresh : ∀ kv ∈ m, ∀ p ∈ ns, pyKeyEq kv.1 p.1 = false) :
    foldUrls m ns = m ++ ns.map (fun p => (p.1, p.2.2)) := by
  induction ns generalizing m with
  | nil => simp [foldUrls]
  | cons p rest ih =>
    obtain ⟨t, raw, us⟩ := p
    simp only [titlesDistinct, Bool.and_eq_true, List.all_eq_true] at hd
    simp only [foldUrls]
    rw [addUrls_fresh m t us (fun kv hk => hfresh kv hk (t, raw, us) (by simp))]
    rw [ih (m ++ [(t, us)]) hd.2]
    · simp
    · intro kv hk q hq
      rcases List.mem_append.mp hk with hk1 | hk2
      · exact hfresh kv hk1 q (by simp [hq])
      · have : kv = (t, us) := by simpa using hk2
        subst this
        have := hd.1 q hq
        simpa using this

theorem titledUrls_nil (ns : List Node) (t : JsonVal)
    (h : ∀ p ∈ ns, pyKeyEq p.1 t = false) : titledUrls ns t = [] := by
  induction ns with
  | nil => rfl
  | cons p rest ih =>
    have h1 := h p (by simp)
    simp [titledUrls, h1, ih (fun q hq => h q (by simp [hq]))]

theorem titledUrls_distinct (ns : List Node) (hd : titlesDistinct ns = true)
    (hh : hashableTitles ns = true) (p : Node) (hp : p ∈ ns) :
    titledUrls ns p.1 = p.2.2 ∧ hasTitle ns p.1 = true := by
  induction ns with
  | nil => cases hp
  | cons q rest ih =>
    simp only [titlesDistinct, Bool.and_eq_true, List.all_eq_true] at hd
    simp only [hashableTitles, List.all_cons, Bool.and_eq_true] at hh
    rcases List.mem_cons.mp hp with rfl | hp2
    · have hrefl : pyKeyEq p.1 p.1 = true := pyKeyEq_refl _ hh.1
      have hrest : titledUrls rest p.1 = [] := by
        apply titledUrls_nil
        intro r hr
        have := hd.1 r hr
        cases hx : pyKeyEq r.1 p.1
        · rfl
        · exact absurd (pyKeyEq_symm_true hx) (by simpa using this)
      simp [titledUrls, hasTitle, hrefl, hrest]
    · have hq : pyKeyEq q.1 p.1 = false := by simpa using hd.1 p hp2
      have := ih hd.2 hh.2 hp2
      simp [titledUrls, hasTitle, hq, this.1, this.2]

theorem hasTitle_of_mem (ns : List Node) (p : Node) (hp : p ∈ ns)
    (h : hashable p.1 = true) : hasTitle ns p.1 = true := by
  induction ns with
  | nil => cases hp
  | cons q rest ih =>
    rcases List.mem_cons.mp hp with rfl | hp2
    · simp [hasTitle, pyKeyEq_refl _ h]
    · simp [hasTitle, ih hp2]

/-- Claim C1: for a document whose discovered media-entry lists resolve to
pairwise-distinct (hashable) titles, `extract_media_urls` succeeds, its key
set is exactly the titles of those lists in encounter order, and each
title's sequence length is the number of entries of its source list with a
truthy (for URL strings: non-empty) `snapUrls.mediaUrl` value; every emitted
reference has a truthy media-URL value, so no reference comes from an entry
lacking that field. -/
theorem C1_extract_keys_and_counts (data : Obj) (ns : List Node)
    (h : extractNodes data = .ok ns)
    (hh : hashableTitles ns = true)
    (hd : titlesDistinct ns = true) :
    ∃ m, extract_media_urls data = .ok m ∧
      m.map Prod.fst = ns.map Prod.fst ∧
      ∀ p ∈ ns, mediaLookup m p.1 = some p.2.2 ∧
        p.2.2.length = p.2.1.countP hasMediaUrl ∧
        ∀ u ∈ p.2.2, truthy u = true := by
  refine ⟨foldUrls [] ns, ?_, ?_, ?_⟩
  · rw [extract_chr data, h]
    exact foldAdd_ok ns [] hh
  · rw [foldUrls_fresh ns [] hd (by intro kv hk; cases hk)]
    simp
  · intro p hp
    refine ⟨?_, ?_, ?_⟩
    · rw [mediaLookup_foldUrls ns [] p.1]
      obtain ⟨h1, h2⟩ := titledUrls_distinct ns hd hh p hp
      simp [mediaLookup, h1, h2]
    · exact (extractUrls_spec p.2.1 p.2.2 (extractNodes_sound data ns h p hp)).1
    · exact (extractUrls_spec p.2.1 p.2.2 (extractNodes_sound data ns h p hp)).2

/-- Witness for C1 at a concrete document with two lists and one entry whose
media-URL value is empty. -/
theorem C1_witness :
    extractNodes w1doc = .ok w1nodes ∧ hashableTitles w1nodes = true ∧
      titlesDistinct w1nodes = true ∧
      (∃ m, extract_media_urls w1doc = .ok m ∧
        m.map Prod.fst = w1nodes.map Prod.fst ∧
        ∀ p ∈ w1nodes, mediaLookup m p.1 = some p.2.2 ∧
          p.2.2.length = p.2.1.countP hasMediaUrl ∧
          ∀ u ∈ p.2.2, truthy u = true) :=
  ⟨rfl, rfl, rfl, C1_extract_keys_and_counts w1doc w1nodes rfl rfl rfl⟩

/-- Claim C7: a resolved title arising from several collection nodes
accumulates every node's URLs under the one title, appended in document
encounter order (never overwritten). -/
theorem C7_title_accumulation (data : Obj) (ns : List Node) (t : JsonVal)
    (h : extractNodes data = .ok ns) (hh : hashableTitles ns = true) :
    ∃ m, extract_media_urls data = .ok m ∧
      mediaLookup m t =
        (if hasTitle ns t = true then some (titledUrls ns t) else none) := by
  refine ⟨foldUrls [] ns, ?_, ?_⟩
  · rw [extract_chr data, h]
    exact foldAdd_ok ns [] hh
  · rw [mediaLookup_foldUrls ns [] t]
    simp [mediaLookup]

/-- Witness for C7: two nodes resolving to the same title "alb" (one via the
parent key, one via a `title` field) accumulate `[u1, u2]`. -/
theorem C7_witness :
    extractNodes w7doc = .ok w7nodes ∧ hashableTitles w7nodes = true ∧
      (∃ m, extract_media_urls w7doc = .ok m ∧
        mediaLookup m (.str "alb") =
          (if hasTitle w7nodes (.str "alb") = true
           then some (titledUrls w7nodes (.str "alb")) else none)) :=
  ⟨rfl, rfl, C7_title_accumulation w7doc w7nodes (.str "alb") rfl rfl⟩

/-- Claim C10: every discovered media-entry list puts its resolved title
into the result even when it contributes no URLs; when no same-titled node
contributes any URL either, the title maps to the empty sequence. -/
theorem C10_empty_collection_recorded (data : Obj) (ns : List Node) (p : Node)
    (h : extractNodes data = .ok ns) (hh : hashableTitles ns = true)
    (hp : p ∈ ns) :
    ∃ m, extract_media_urls data = .ok m ∧
      mediaLookup m p.1 ≠ none ∧
      (titledUrls ns p.1 = [] → mediaLookup m p.1 = some []) := by
  have hhp : hashable p.1 = true := by
    have := (List.all_eq_true.mp hh) p hp
    simpa using this
  have hht : hasTitle ns p.1 = true := hasTitle_of_mem ns p hp hhp
  refine ⟨foldUrls [] ns, ?_, ?_, ?_⟩
  · rw [extract_chr data, h]
    exact foldAdd_ok ns [] hh
  · rw [mediaLookup_foldUrls ns [] p.1]
    simp [mediaLookup, hht]
  · intro hte
    rw [mediaLookup_foldUrls ns [] p.1]
    simp [mediaLookup, hht, hte]

/-- Witness for C10: an empty `snapList` still yields the key `"empty"`
bound to the empty sequence. -/
theorem C10_witness :
    extractNodes w10doc = .ok w10nodes ∧ hashableTitles w10nodes = true ∧
      (.str "empty", ([] : List JsonVal), ([] : List JsonVal)) ∈ w10nodes ∧
      (∃ m, extract_media_urls w10doc = .ok m ∧
        mediaLookup m (.str "empty") ≠ none ∧
        (titledUrls w10nodes (.str "empty") = [] →
          mediaLookup m (.str "empty") = some [])) :=
  ⟨rfl, rfl, List.mem_singleton.mpr rfl,
   C10_empty_collection_recorded w10doc w10nodes (.str "empty", [], []) rfl rfl
     (List.mem_singleton.mpr rfl)⟩

theorem getOpt_swapMid (pre post : Obj) (v w : JsonVal) (k : String)
    (hk : k ≠ "snapList") :
    getOpt (pre ++ ("snapList", v) :: post) k
      = getOpt (pre ++ ("snapList", w) :: post) k := by
  induction pre with
  | nil => simp [getOpt, Ne.symm hk]
  | cons kv rest ih =>
    obtain ⟨k0, v0⟩ := kv
    simp only [List.cons_append, getOpt]
    by_cases h0 : k0 = k
    · simp [h0]
    · simp [h0, ih]

theorem pyGet_swapMid (pre post : Obj) (v w : JsonVal) (k : String)
    (hk : k ≠ "snapList") :
    pyGet (pre ++ ("snapList", v) :: post) k
      = pyGet (pre ++ ("snapList", w) :: post) k := by
  simp [pyGet, getOpt_swapMid pre post v w k hk]

/-- The resolved title reads only the `storyTitle`, `title` and `displayName`
fields, so it cannot depend on the value stored under the `snapList` key. -/
theorem computeTitle_swapMid (pre post : Obj) (v w : JsonVal) (path : List String) :
    computeTitle (pre ++ ("snapList", v) :: post) path
      = computeTitle (pre ++ ("snapList", w) :: post) path := by
  unfold computeTitle
  rw [pyGet_swapMid pre post v w "storyTitle" (by decide),
    pyGet_swapMid pre post v w "title" (by decide),
    pyGet_swapMid pre post v w "displayName" (by decide)]

theorem recurseEntries_congr_whole (w1 w2 : Obj) (entries : List (String × JsonVal))
    (path : List String) (m : Media)
    (hct : computeTitle w1 path = computeTitle w2 path) :
    recurseEntries w1 entries path m = recurseEntries w2 entries path m := by
  induction entries generalizing m with
  | nil => rfl
  | cons kv rest ih =>
    obtain ⟨key, val⟩ := kv
    by_cases hc : key = "snapList" ∧ val.isArr = true
    · simp only [recurseEntries, if_pos hc, ← hct]
      cases computeTitle w1 path with
      | error e => rfl
      | ok title =>
        dsimp only
        cases extractUrls val.asArr with
        | error e => rfl
        | ok urls =>
          dsimp only
          cases addTitled m title urls with
          | error e => rfl
          | ok m2 => exact ih m2
    · simp only [recurseEntries, if_neg hc]
      cases recurseVal val (path ++ [key]) m with
      | error e => rfl
      | ok m2 => exact ih m2

theorem recurseEntries_swapMid (w1 w2 : Obj) (pre post : List (String × JsonVal))
    (s1 s2 : List JsonVal) (path : List String) (m : Media)
    (hct : computeTitle w1 path = computeTitle w2 path)
    (hu : extractUrls s1 = extractUrls s2) :
    recurseEntries w1 (pre ++ ("snapList", .arr s1) :: post) path m
      = recurseEntries w2 (pre ++ ("snapList", .arr s2) :: post) path m := by
  induction pre generalizing m with
  | nil =>
    simp only [List.nil_append, recurseEntries, JsonVal.isArr, and_true, if_pos rfl, ← hct]
    cases computeTitle w1 path with
    | error e => rfl
    | ok title =>
      dsimp only
      have ha : extractUrls (JsonVal.asArr (.arr s1))
          = extractUrls (JsonVal.asArr (.arr s2)) := by
        simpa [JsonVal.asArr] using hu
      rw [ha]
      cases extractUrls (JsonVal.asArr (.arr s2)) with
      | error e => rfl
      | ok urls =>
        dsimp only
        cases addTitled m title urls with
        | error e => rfl
        | ok m2 => exact recurseEntries_congr_whole w1 w2 post path m2 hct
  | cons kv rest ih =>
    obtain ⟨key, val⟩ := kv
    simp only [List.cons_append, recurseEntries]
    by_cases hc : key = "snapList" ∧ val.isArr = true
    · rw [if_pos hc, if_pos hc, ← hct]
      cases computeTitle w1 path with
      | error e => rfl
      | ok title =>
        dsimp only
        cases extractUrls val.asArr with
        | error e => rfl
        | ok urls =>
          dsimp only
          cases addTitled m title urls with
          | error e => rfl
          | ok m2 => exact ih m2
    · rw [if_neg hc, if_neg hc]
      cases recurseVal val (path ++ [key]) m with
      | error e => rfl
      | ok m2 => exact ih m2

/-- Claim C9: the walk never descends into the value of a matched
`snapList` key: at any visited object, replacing the list by another list
with the same per-entry media-URL extraction (for instance one whose
entries additionally contain whole nested `snapList` collections) leaves
the result unchanged, so nested lists inside the entries are never
discovered and contribute no URLs. -/
theorem C9_no_descent (pre post : Obj) (s1 s2 : List JsonVal)
    (path : List String) (m : Media)
    (hu : extractUrls s1 = extractUrls s2) :
    recurseVal (.obj (pre ++ ("snapList", .arr s1) :: post)) path m
      = recurseVal (.obj (pre ++ ("snapList", .arr s2) :: post)) path m := by
  simp only [recurseVal]
  exact recurseEntries_swapMid _ _ pre post s1 s2 path m
    (computeTitle_swapMid pre post (.arr s1) (.arr s2) path) hu

/-- Witness for C9: an entry that itself contains a nested `snapList` with a
further URL behaves exactly like the entry without it. -/
theorem C9_witness :
    extractUrls [.obj [("snapUrls", .obj [("mediaUrl", .str "u")])]]
        = extractUrls [.obj [("snapUrls", .obj [("mediaUrl", .str "u")]),
            ("snapList", .arr [.obj [("snapUrls", .obj [("mediaUrl", .str "hidden")])]])]] ∧
      recurseVal (.obj [("snapList", .arr
          [.obj [("snapUrls", .obj [("mediaUrl", .str "u")])]])]) [] []
        = recurseVal (.obj [("snapList", .arr
            [.obj [("snapUrls", .obj [("mediaUrl", .str "u")]),
              ("snapList", .arr [.obj [("snapUrls", .obj [("mediaUrl", .str "hidden")])]])]])]) [] [] :=
  ⟨rfl, C9_no_descent [] [] _ _ [] [] rfl⟩

/-- Claim C3: the title of a collection node is resolved in strict priority
order — a truthy (present, non-empty) `storyTitle.value` first, then a
truthy `title`, then a truthy `displayName`, and only when all three are
absent or falsy the name of the structural key one level up (or the
placeholder for an empty path).  In particular a truthy `storyTitle.value`
wins over any `title` value. -/
theorem C3_title_priority (o : Obj) (path : List String) (sv : JsonVal)
    (hsv : dotGet (pyOr (pyGet o "storyTitle") (.obj [])) "value" = .ok sv) :
    (truthy sv = true → computeTitle o path = .ok sv) ∧
    (truthy sv = false → truthy (pyGet o "title") = true →
      computeTitle o path = .ok (pyGet o "title")) ∧
    (truthy sv = false → truthy (pyGet o "title") = false →
      truthy (pyGet o "displayName") = true →
      computeTitle o path = .ok (pyGet o "displayName")) ∧
    (truthy sv = false → truthy (pyGet o "title") = false →
      truthy (pyGet o "displayName") = false →
      computeTitle o path =
        .ok (.str (match path.getLast? with | some k => k | none => "unknown"))) := by
  unfold computeTitle
  rw [hsv]
  refine ⟨?_, ?_, ?_, ?_⟩
  · intro h1
    simp [pyOr, h1]
  · intro h1 h2
    simp [pyOr, h1, h2]
  · intro h1 h2 h3
    simp [pyOr, h1, h2, h3]
  · intro h1 h2 h3
    simp [pyOr, h1, h2, h3]

/-- Witness for C3: with both `storyTitle.value = "S"` and `title = "T"`
present, the resolved title is `"S"`. -/
theorem C3_witness :
    dotGet (pyOr (pyGet [("storyTitle", .obj [("value", .str "S")]), ("title", .str "T")]
        "storyTitle") (.obj [])) "value" = .ok (.str "S") ∧
      computeTitle [("storyTitle", .obj [("value", .str "S")]), ("title", .str "T")] ["p"]
        = .ok (.str "S") :=
  ⟨rfl, (C3_title_priority
    [("storyTitle", .obj [("value", .str "S")]), ("title", .str "T")] ["p"]
    (.str "S") rfl).1 rfl⟩

/-- Counterexample to claim C4: the collection under the empty-string key
resolves to the empty-string title (the parent-key fallback is taken
verbatim, with no emptiness check), so the returned map has an empty string
as a key instead of the placeholder "unknown". -/
theorem C4_counterexample :
    extract_media_urls c4doc = .ok [(.str "", [.str "u"])] ∧
      ("" : String).length = 0 :=
  ⟨rfl, rfl⟩

/-- Claim C4 amended: the placeholder "unknown" is used only when all three
title fields are absent or falsy AND the node sits directly at the
`pageProps` root (empty key path); a node deeper in the tree falls back to
the parent key name verbatim, even when that key is the empty string, and a
truthy whitespace-only field value is used as-is, so keys can be empty or
whitespace-only strings. -/
theorem C4_amended_unknown_only_at_root (o : Obj) (sv : JsonVal)
    (hsv : dotGet (pyOr (pyGet o "storyTitle") (.obj [])) "value" = .ok sv)
    (h1 : truthy sv = false) (h2 : truthy (pyGet o "title") = false)
    (h3 : truthy (pyGet o "displayName") = false) :
    computeTitle o [] = .ok (.str "unknown") := by
  unfold computeTitle
  rw [hsv]
  simp [pyOr, h1, h2, h3]

/-- Witness for the amended C4: a node with no title fields at the
`pageProps` root resolves to "unknown". -/
theorem C4_amended_witness :
    dotGet (pyOr (pyGet ([] : Obj) "storyTitle") (.obj [])) "value" = .ok .null ∧
      truthy .null = false ∧
      computeTitle ([] : Obj) [] = .ok (.str "unknown") :=
  ⟨rfl, rfl, C4_amended_unknown_only_at_root [] .null rfl rfl rfl rfl⟩

theorem download_some (resp : MediaResponse) (u dest : String)
    (h200 : resp.status = 200) (hw : resp.writeOk = true) :
    download_media_to_dir resp u dest
      = some (dest ++ "/" ++ download_filename (pyUrlPath u) resp.contentType) := by
  simp [download_media_to_dir, h200, hw]

theorem download_none (resp : MediaResponse) (u dest : String)
    (h : resp.status ≠ 200) :
    download_media_to_dir resp u dest = none := by
  simp [download_media_to_dir, h]

/-- Claim C2: on a batch of K URLs of which M come back with a non-success
status (and whose file writes succeed), the pool returns exactly K−M saved
paths, and every successfully fetched URL's path is present regardless of
the failures interleaved with it — no item failure aborts the batch, which
always completes with a result list. -/
theorem C2_partial_batch (fetch : String → MediaResponse) (urls : List String)
    (dest : String) (hw : ∀ u ∈ urls, (fetch u).writeOk = true) :
    (download_and_collect_sync fetch urls dest).length
        = urls.length - urls.countP (fun u => (fetch u).status != 200) ∧
      ∀ u ∈ urls, (fetch u).status = 200 →
        (dest ++ "/" ++ download_filename (pyUrlPath u) (fetch u).contentType)
          ∈ download_and_collect_sync fetch urls dest := by
  constructor
  · induction urls with
    | nil => rfl
    | cons u us ih =>
      have hwu : (fetch u).writeOk = true := hw u (by simp)
      have ihh := ih (fun v hv => hw v (by simp [hv]))
      have hM : us.countP (fun v => (fetch v).status != 200) ≤ us.length :=
        List.countP_le_length _
      by_cases hs : (fetch u).status = 200
      · have hd := download_some (fetch u) u dest hs hwu
        have e1 : download_and_collect_sync fetch (u :: us) dest
            = (dest ++ "/" ++ download_filename (pyUrlPath u) (fetch u).contentType)
              :: download_and_collect_sync fetch us dest := by
          simp [download_and_collect_sync, hd]
        have e2 : (u :: us).countP (fun v => (fetch v).status != 200)
            = us.countP (fun v => (fetch v).status != 200) := by
          simp [List.countP_cons, hs]
        rw [e1, e2, List.length_cons, ihh]
        simp only [List.length_cons]
        omega
      · have hd := download_none (fetch u) u dest hs
        have e1 : download_and_collect_sync fetch (u :: us) dest
            = download_and_collect_sync fetch us dest := by
          simp [download_and_collect_sync, hd]
        have e2 : (u :: us).countP (fun v => (fetch v).status != 200)
            = us.countP (fun v => (fetch v).status != 200) + 1 := by
          simp [List.countP_cons, bne_iff_ne, hs]
        rw [e1, e2, ihh]
        simp only [List.length_cons]
        omega
  · intro u hu h200
    have hd := download_some (fetch u) u dest h200 (hw u hu)
    refine List.mem_filterMap.mpr
      ⟨some (dest ++ "/" ++ download_filename (pyUrlPath u) (fetch u).contentType),
        ?_, rfl⟩
    exact List.mem_map.mpr ⟨u, hu, hd⟩

/-- Witness for C2: a failing URL interleaved between two succeeding ones
yields 2 = 3 − 1 files, and both successes are present. -/
theorem C2_witness :
    (∀ u ∈ wurls, (wfetch u).writeOk = true) ∧
      ((download_and_collect_sync wfetch wurls "d").length
          = wurls.length - wurls.countP (fun u => (wfetch u).status != 200) ∧
        ∀ u ∈ wurls, (wfetch u).status = 200 →
          ("d" ++ "/" ++ download_filename (pyUrlPath u) (wfetch u).contentType)
            ∈ download_and_collect_sync wfetch wurls "d") :=
  ⟨by decide, C2_partial_batch wfetch wurls "d" (by decide)⟩

/-- Counterexample to claim C6: for a basename that already carries the
recognizable image extension ".png", an `image/jpeg` response still gets
".jpg" appended (the code only checks for the one derived extension, not
for any recognizable media extension), yielding "a.png.jpg". -/
theorem C6_counterexample :
    download_media_to_dir ⟨200, "image/jpeg", true⟩ "https://x/a.png" "d"
        = some "d/a.png.jpg" ∧
      hasMediaExtension "a.png" = true :=
  ⟨rfl, rfl⟩

/-- Claim C6 amended: the on-disk name is the URL path's percent-decoded
basename with filesystem-unsafe characters stripped; a content type
containing "image" appends ".jpg" and one containing "video" (but not
"image") appends ".mp4", in each case unless the lower-cased basename
already ends with that exact extension; other content types append
nothing. -/
theorem C6_amended_filename (path ct : String) :
    (pyContains "image" ct = true →
      download_filename path ct =
        (if endsWithStr (toLowerStr (stripChars (pyUnquote (pyBasename path)))) ".jpg" = true
         then stripChars (pyUnquote (pyBasename path))
         else stripChars (pyUnquote (pyBasename path)) ++ ".jpg")) ∧
    (pyContains "image" ct = false → pyContains "video" ct = true →
      download_filename path ct =
        (if endsWithStr (toLowerStr (stripChars (pyUnquote (pyBasename path)))) ".mp4" = true
         then stripChars (pyUnquote (pyBasename path))
         else stripChars (pyUnquote (pyBasename path)) ++ ".mp4")) ∧
    (pyContains "image" ct = false → pyContains "video" ct = false →
      download_filename path ct = stripChars (pyUnquote (pyBasename path))) := by
  refine ⟨?_, ?_, ?_⟩
  · intro h1
    by_cases he : endsWithStr (toLowerStr (stripChars (pyUnquote (pyBasename path)))) ".jpg" = true
    · simp [download_filename, contentTypeExt, h1, he]
    · simp [download_filename, contentTypeExt, h1, he]
  · intro h1 h2
    by_cases he : endsWithStr (toLowerStr (stripChars (pyUnquote (pyBasename path)))) ".mp4" = true
    · simp [download_filename, contentTypeExt, h1, h2, he]
    · simp [download_filename, contentTypeExt, h1, h2, he]
  · intro h1 h2
    simp [download_filename, contentTypeExt, h1, h2]

/-- Witness for the amended C6, covering the three content-type classes. -/
theorem C6_witness :
    download_filename "/a.png" "video/mp4" = "a.png.mp4" ∧
      download_filename "/b.jpg" "image/gif" = "b.jpg" ∧
      download_filename "/c.bin" "text/html" = "c.bin" := by
  refine ⟨?_, ?_, ?_⟩
  · rw [(C6_amended_filename "/a.png" "video/mp4").2.1 rfl rfl]
    rfl
  · rw [(C6_amended_filename "/b.jpg" "image/gif").1 rfl]
    rfl
  · rw [(C6_amended_filename "/c.bin" "text/html").2.2 rfl rfl]
    rfl

/-- Counterexample to claim C5: a non-success, non-404 status (here 500)
whose body still carries a parseable payload is NOT mapped to the absent
result — the document is returned, because the code only special-cases
status 404 before parsing. -/
theorem C5_counterexample :
    fetch_next_data (fun _ => some []) ⟨500, some "payload"⟩ = some [] ∧
      (500 : Nat) ≠ 404 ∧ (500 : Nat) ≠ 200 :=
  ⟨rfl, by decide, by decide⟩

/-- Claim C5 amended: the fetcher returns absent on a 404 status, on a
missing payload element, and on a structured-data parse failure — none of
these escalates an error; but any other status (success or not) is treated
alike: the body is parsed and a parseable payload is returned as a
document. -/
theorem C5_amended_fetch (parseJson : String → Option Obj) (resp : FetchResponse) :
    (resp.status = 404 → fetch_next_data parseJson resp = none) ∧
    (resp.nextData = none → fetch_next_data parseJson resp = none) ∧
    (∀ s, resp.nextData = some s → parseJson s = none →
      fetch_next_data parseJson resp = none) ∧
    (resp.status ≠ 404 → ∀ s, resp.nextData = some s → s ≠ "" →
      fetch_next_data parseJson resp = parseJson s) := by
  refine ⟨?_, ?_, ?_, ?_⟩
  · intro h
    simp [fetch_next_data, h]
  · intro h
    simp [fetch_next_data, h]
  · intro s hs hp
    simp [fetch_next_data, hs, hp]
  · intro h404 s hs hne
    simp [fetch_next_data, h404, hs, hne]

/-- Witness for the amended C5: a 404 yields absent, and a success status
with an unparseable payload yields absent. -/
theorem C5_witness :
    fetch_next_data (fun _ => some []) ⟨404, some "x"⟩ = none ∧
      fetch_next_data (fun _ => none) ⟨200, some "x"⟩ = none :=
  ⟨(C5_amended_fetch (fun _ => some []) ⟨404, some "x"⟩).1 rfl,
   (C5_amended_fetch (fun _ => none) ⟨200, some "x"⟩).2.2.1 "x" rfl rfl⟩

/-- Claim C8: on an empty file set the builder returns the absent result
having performed no filesystem operation; on a nonempty set it returns the
archive path `<zdir>/<username>_<kind>_<timestamp>.zip`. -/
theorem C8_empty_and_nonempty (addOk : String → Bool) (files : List String)
    (username kind zdir timestamp : String) (hne : files ≠ []) :
    make_zip_from_files addOk [] username kind zdir timestamp = (none, []) ∧
      (make_zip_from_files addOk files username kind zdir timestamp).1
        = some (zdir ++ "/" ++ (username ++ "_" ++ kind ++ "_" ++ timestamp ++ ".zip")) := by
  constructor
  · rfl
  · have h : files.isEmpty = false := by
      cases files with
      | nil => exact absurd rfl hne
      | cons a l => rfl
    simp [make_zip_from_files, h]

/-- Witness for C8 at concrete inputs. -/
theorem C8_witness :
    make_zip_from_files (fun _ => true) [] "alice" "stories" "/tmp/z" "t" = (none, []) ∧
      (make_zip_from_files (fun _ => true) ["/d/a.jpg"] "alice" "stories" "/tmp/z" "t").1
        = some ("/tmp/z" ++ "/" ++ ("alice" ++ "_" ++ "stories" ++ "_" ++ "t" ++ ".zip")) :=
  C8_empty_and_nonempty (fun _ => true) ["/d/a.jpg"] "alice" "stories" "/tmp/z" "t"
    (List.cons_ne_nil _ _)
